import Mathlib

/-!
Verification of the VT Season 5 Benchmark Tracker scoring engine.

A shallow embedding of the pure scoring/ranking/energy functions of the
benchmark tracker (`src/unnamed/part_001`, i.e. the utilities module imported
from `./models`, together with the inline per-scenario rank resolution in
`src/src/App.tsx`).  JavaScript numbers are modelled by exact rationals `ℚ`;
the one place where the JavaScript special values (`NaN`, `Infinity`) are
observable for the properties under study — the unguarded division in
`calculateHarmonicMean` — is modelled by an explicit `JsNum` type whose
division follows the IEEE/JS rules for zero denominators.

JavaScript objects used as dictionaries (`Threshold`, scenario maps, …) are
modelled as association lists in key-iteration order; `Object.entries`
enumerates that order and `Array.prototype.sort` (stable since ES2019) is
modelled by the stable `List.insertionSort`.
-/

namespace VTBench

/-- Constant `ENERGY_BASE = 100` from `models.ts` ("Base energy for the first rank"). -/
def ENERGY_BASE : ℚ := 100

/-- Constant `ENERGY_INCREMENT = 100` from `models.ts` ("Increment per rank"). -/
def ENERGY_INCREMENT : ℚ := 100

/-- The `Difficulty` union type from `models.ts`. -/
inductive Difficulty where
  | Novice
  | Intermediate
  | Advanced
deriving DecidableEq, Repr

/-- A `Threshold` object (`models.ts`): tier label → numeric score threshold,
kept as an association list in key-iteration order. -/
abbrev Threshold := List (String × ℚ)

/-- The part of `BenchmarkState` the engine reads: scenario name → recorded
`highScore` (the remaining `ScoreData` fields are display-only passthrough).
`none` models a scenario with no recorded score. -/
abbrev BenchmarkState := String → Option ℚ

/-- A scenario map: scenario name → its `Threshold` object. -/
abbrev ScenarioMap := List (String × Threshold)

/-- The catalogue `BenchmarkData[difficulty]` viewed through the two `Object.values`
traversals of `isRankComplete`: per difficulty, the list of category values,
each a list of subcategory values, each a `ScenarioMap`. -/
abbrev BenchmarkData := Difficulty → List (List ScenarioMap)

/-- The entry comparison used by
`Object.entries(thresholds).sort(([, a], [, b]) => a - b)`:
order entries by their numeric threshold. -/
def entryLE (a b : String × ℚ) : Prop := a.2 ≤ b.2

instance : DecidableRel entryLE := fun a b => inferInstanceAs (Decidable (a.2 ≤ b.2))

instance : IsTotal (String × ℚ) entryLE := ⟨fun a b => le_total a.2 b.2⟩

instance : IsTrans (String × ℚ) entryLE := ⟨fun _ _ _ h h' => le_trans h h'⟩

/-- The sort `Object.entries(thresholds).sort(([, a], [, b]) => a - b)` from
`calculateScenarioEnergy`: stable sort of the entries, ascending by value. -/
def sortEntries (thresholds : Threshold) : Threshold :=
  thresholds.insertionSort entryLE

/-- The bracket-search loop of `calculateScenarioEnergy`
(`for (let i = 1; i < extendedThresholds.length; i++) …`): starting from
`previous = prev` at index `i`, scan the remaining thresholds; if
`previous.threshold ≤ score < current.threshold`, return
`startingEnergy + (i − 2) · ENERGY_INCREMENT + progress · ENERGY_INCREMENT`;
if the loop finishes, return the saturation value `sat` computed after it. -/
def walkEnergy (score startingEnergy : ℚ) : ℚ → List ℚ → ℤ → ℚ → ℚ
  | _, [], _, sat => sat
  | prev, c :: rest, i, sat =>
    if prev ≤ score ∧ score < c then
      startingEnergy + ((i : ℚ) - 2) * ENERGY_INCREMENT +
        ((score - prev) / (c - prev)) * ENERGY_INCREMENT
    else
      walkEnergy score startingEnergy c rest (i + 1) sat

/-- The numeric core of `calculateScenarioEnergy`, applied to the sorted list
of threshold values.  With fewer than two thresholds the JavaScript code
dereferences `undefined` (`rankThresholds[1].threshold`) and throws — the
spec's `InsufficientTiers` fatal failure — modelled by `none`. -/
def cseSorted (score : ℚ) (ts : List ℚ) (startingEnergy : ℚ) : Option ℚ :=
  match ts with
  | t0 :: t1 :: rest =>
    let tsAll := t0 :: t1 :: rest
    -- fakeLowerThreshold = lowest - (secondLowest - lowest)
    let fakeLowerThreshold := t0 - (t1 - t0)
    -- highestRank = rankThresholds[length - 1], secondHighest = [length - 2]
    let highest := tsAll.getD (tsAll.length - 1) 0
    let secondHighest := tsAll.getD (tsAll.length - 2) 0
    let fakeUpperThreshold := highest + (highest - secondHighest)
    some
      (if score < fakeLowerThreshold then
        -- score below fake lower threshold
        (score / fakeLowerThreshold) * (startingEnergy - ENERGY_INCREMENT)
      else if score < t0 then
        -- score between fake lower threshold and lowest real threshold
        startingEnergy - ENERGY_INCREMENT +
          ((score - fakeLowerThreshold) / (t0 - fakeLowerThreshold)) * ENERGY_INCREMENT
      else
        -- walk extendedThresholds = [FakeLower, T0, …, Tn−1, FakeUpper];
        -- past the loop, the code returns
        -- startingEnergy + (n − 1) · ENERGY_INCREMENT + ENERGY_INCREMENT
        walkEnergy score startingEnergy fakeLowerThreshold
          (tsAll ++ [fakeUpperThreshold]) 1
          (startingEnergy + ((tsAll.length : ℚ) - 1) * ENERGY_INCREMENT + ENERGY_INCREMENT))
  | _ => none

/-- Function `calculateScenarioEnergy(score, thresholds, startingEnergy)` from the
utilities module: sort the threshold entries by value and run the
interpolation over the resulting value list. -/
def calculateScenarioEnergy (score : ℚ) (thresholds : Threshold)
    (startingEnergy : ℚ) : Option ℚ :=
  cseSorted score ((sortEntries thresholds).map Prod.snd) startingEnergy

/-- JavaScript numbers as observed through one division: an exact rational,
or one of the special values produced by a zero denominator. -/
inductive JsNum where
  | num (q : ℚ)
  | posInf
  | negInf
  | nan
deriving DecidableEq, Repr

/-- JavaScript division `a / b` on exact inputs: for `b ≠ 0` the exact
quotient, otherwise `NaN` (`0 / 0`) or a signed infinity. -/
def jsDiv (a b : ℚ) : JsNum :=
  if b = 0 then
    if a = 0 then JsNum.nan
    else if 0 < a then JsNum.posInf
    else JsNum.negInf
  else JsNum.num (a / b)

/-- Function `calculateHarmonicMean(values, expectedCount)` from the utilities module:
return 0 on a length mismatch or a zero entry, otherwise divide the length by
the reciprocal sum — a division that is *not* guarded against an empty
`values` array, where it evaluates `0 / 0`. -/
def calculateHarmonicMean (values : List ℚ) (expectedCount : ℕ) : JsNum :=
  if values.length ≠ expectedCount ∨ ∃ v ∈ values, v = 0 then JsNum.num 0
  else jsDiv (values.length : ℚ) (values.foldl (fun sum v => sum + 1 / v) 0)

/-- The fixed difficulty order `["Novice", "Intermediate", "Advanced"]` used
by `calculateStartingEnergy`. -/
def difficultiesList : List Difficulty :=
  [Difficulty.Novice, Difficulty.Intermediate, Difficulty.Advanced]

/-- Function `calculateStartingEnergy(difficulty, difficultyRanks)`: cumulative energy
of all strictly lower difficulties (`numRanks × ENERGY_INCREMENT` each) plus
`ENERGY_BASE`. -/
def calculateStartingEnergy (difficulty : Difficulty)
    (difficultyRanks : Difficulty → List String) : ℚ :=
  let difficultyIndex := difficultiesList.indexOf difficulty
  ((difficultiesList.take difficultyIndex).map
      fun d => ((difficultyRanks d).length : ℚ) * ENERGY_INCREMENT).sum + ENERGY_BASE

/-- The countdown loop of `calculateOverallRank`
(`for (let i = ranks.length - 1; i >= 0; i--) …`): fuel `i + 1` examines
index `i`; `ranks[i]` is in bounds at every examined index, so the `getD`
default is never read. -/
def rankLoop (energy startingEnergy : ℚ) (ranks : List String) : ℕ → String
  | 0 => "Unranked"
  | i + 1 =>
    if startingEnergy + (i : ℚ) * ENERGY_INCREMENT ≤ energy then
      ranks.getD i "Unranked"
    else
      rankLoop energy startingEnergy ranks i

/-- Function `calculateOverallRank(energy, difficulty, difficultyRanks)` from the
utilities module. -/
def calculateOverallRank (energy : ℚ) (difficulty : Difficulty)
    (difficultyRanks : Difficulty → List String) : String :=
  rankLoop energy (calculateStartingEnergy difficulty difficultyRanks)
    (difficultyRanks difficulty) (difficultyRanks difficulty).length

/-- Function `isRankComplete(scores, benchmarkData, difficulty, rank)` from the
utilities module: triple `forEach` over the difficulty's categories,
subcategories and scenario entries, clearing a completion flag whenever a
scenario with a recorded score and a *truthy* threshold for `rank`
(`thresholds[rank]` — present and nonzero) has `highScore < thresholds[rank]`. -/
def isRankComplete (scores : BenchmarkState) (benchmarkData : BenchmarkData)
    (difficulty : Difficulty) (rank : String) : Bool :=
  (benchmarkData difficulty).foldl
    (fun acc1 categories =>
      categories.foldl
        (fun acc2 scenarios =>
          scenarios.foldl
            (fun acc3 p =>
              match scores p.1, p.2.lookup rank with
              | some highScore, some threshold =>
                if threshold ≠ 0 then
                  if highScore < threshold then false else acc3
                else acc3
              | _, _ => acc3)
            acc2)
        acc1)
    true

/-- One `forEach` step of `calculateSubcategoryEnergy`: if the scenario has a
recorded score, fold its energy into the running `Math.max`; an exception
from `calculateScenarioEnergy` (fewer than two thresholds) aborts the whole
computation, modelled by `none`. -/
def subcatStep (scores : BenchmarkState) (startingEnergy : ℚ) (acc : Option ℚ)
    (p : String × Threshold) : Option ℚ :=
  match acc with
  | none => none
  | some maxEnergy =>
    match scores p.1 with
    | none => some maxEnergy
    | some highScore =>
      match calculateScenarioEnergy highScore p.2 startingEnergy with
      | none => none
      | some energy => some (max maxEnergy energy)

/-- Function `calculateSubcategoryEnergy(scenarios, scores, startingEnergy)` from the
utilities module: fold over the scenario entries, keeping the running
`Math.max` (starting from `maxEnergy = 0`) of the energies of the scenarios
with a recorded score. -/
def calculateSubcategoryEnergy (scenarios : ScenarioMap) (scores : BenchmarkState)
    (startingEnergy : ℚ) : Option ℚ :=
  scenarios.foldl (subcatStep scores startingEnergy) (some 0)

/-- Specification-side companion of `calculateSubcategoryEnergy`: the list of
per-scenario energies of exactly those scenarios that have a recorded score
(§4.3 of the spec: "for each scenario with both a threshold map and a
recorded score, compute its energy"). -/
def scoredScenarioEnergies (scenarios : ScenarioMap) (scores : BenchmarkState)
    (startingEnergy : ℚ) : List ℚ :=
  scenarios.filterMap fun p =>
    (scores p.1).bind fun hs => calculateScenarioEnergy hs p.2 startingEnergy

/-- The inline per-scenario rank resolution from `App.tsx`
(`let scoreRank = "Unranked"; for (const [rank, threshold] of
Object.entries(thresholds)) if (scoreData.highScore >= threshold)
scoreRank = rank;`): the *last* entry in iteration order whose threshold is
met wins. -/
def scoreRank (highScore : ℚ) (thresholds : Threshold) : String :=
  thresholds.foldl (fun acc p => if p.2 ≤ highScore then p.1 else acc) "Unranked"

/-- The `fakeUpperThreshold` value computed by `calculateScenarioEnergy` for
the sorted value list `t0 :: t1 :: rest`. -/
def upperVal (t0 t1 : ℚ) (rest : List ℚ) : ℚ :=
  (t0 :: t1 :: rest).getD ((t0 :: t1 :: rest).length - 1) 0 +
    ((t0 :: t1 :: rest).getD ((t0 :: t1 :: rest).length - 1) 0 -
      (t0 :: t1 :: rest).getD ((t0 :: t1 :: rest).length - 2) 0)

/-- The `difficultyRanks` mapping of the spec's §8 classification example:
Novice tiers Bronze, Silver, Gold (ordinals 0, 1, 2). -/
def noviceRanksExample : Difficulty → List String
  | Difficulty.Novice => ["Bronze", "Silver", "Gold"]
  | _ => []

/-- The per-scenario condition under which `isRankComplete` keeps its flag:
the scenario has no recorded score, or no (JS-truthy, i.e. nonzero) threshold
for the rank, or its high score meets the threshold. -/
def scenarioOK (scores : BenchmarkState) (rank : String) (p : String × Threshold) : Bool :=
  match scores p.1, p.2.lookup rank with
  | some highScore, some threshold =>
    if threshold ≠ 0 then decide (threshold ≤ highScore) else true
  | _, _ => true

/-! Properties of the bracket-search loop. -/

theorem inc_pos : (0 : ℚ) < ENERGY_INCREMENT := by norm_num [ENERGY_INCREMENT]

/-- Every value produced from position `i` of the loop — including the
saturation fallthrough — is at least the energy level
`startingEnergy + (i − 2) · ENERGY_INCREMENT` of the bracket entered there. -/
theorem walkEnergy_lower (s e : ℚ) (L : List ℚ) :
    ∀ (prev : ℚ) (i : ℤ) (sat : ℚ),
      prev ≤ s →
      sat = e + ((i : ℚ) - 2) * ENERGY_INCREMENT + (L.length : ℚ) * ENERGY_INCREMENT →
      e + ((i : ℚ) - 2) * ENERGY_INCREMENT ≤ walkEnergy s e prev L i sat := by
  induction L with
  | nil =>
    intro prev i sat _ hsat
    simp [walkEnergy, hsat]
  | cons c rest ih =>
    intro prev i sat hps hsat
    rw [walkEnergy]
    split_ifs with h
    · have hcp : 0 < c - prev := by linarith [h.1, h.2]
      have h0 : 0 ≤ (s - prev) / (c - prev) := div_nonneg (by linarith [h.1]) (le_of_lt hcp)
      nlinarith [mul_nonneg h0 (le_of_lt inc_pos)]
    · have hcs : c ≤ s := by
        by_contra hc
        exact h ⟨hps, lt_of_not_le hc⟩
      have hsat' : sat = e + ((((i + 1) : ℤ) : ℚ) - 2) * ENERGY_INCREMENT +
          ((rest.length : ℚ)) * ENERGY_INCREMENT := by
        rw [hsat]; push_cast [List.length_cons]; ring
      have hstep : e + ((i : ℚ) - 2) * ENERGY_INCREMENT ≤
          e + ((((i + 1) : ℤ) : ℚ) - 2) * ENERGY_INCREMENT := by
        push_cast
        nlinarith [inc_pos]
      exact le_trans hstep (ih c (i + 1) sat hcs hsat')

/-- Every value produced from position `i` of the loop is at most the
saturation value, provided `sat` carries the loop invariant
`sat = startingEnergy + (i − 2) · ENERGY_INCREMENT + |L| · ENERGY_INCREMENT`. -/
theorem walkEnergy_upper (s e : ℚ) (L : List ℚ) :
    ∀ (prev : ℚ) (i : ℤ) (sat : ℚ),
      sat = e + ((i : ℚ) - 2) * ENERGY_INCREMENT + (L.length : ℚ) * ENERGY_INCREMENT →
      walkEnergy s e prev L i sat ≤ sat := by
  induction L with
  | nil =>
    intro prev i sat _
    simp [walkEnergy]
  | cons c rest ih =>
    intro prev i sat hsat
    rw [walkEnergy]
    split_ifs with h
    · have hcp : 0 < c - prev := by linarith [h.1, h.2]
      have h1 : (s - prev) / (c - prev) < 1 := (div_lt_one hcp).mpr (by linarith [h.2])
      have hlen : (0 : ℚ) ≤ (rest.length : ℚ) := by positivity
      have hmul : ((s - prev) / (c - prev)) * ENERGY_INCREMENT ≤ ENERGY_INCREMENT := by
        nlinarith [inc_pos]
      rw [hsat]
      push_cast [List.length_cons]
      nlinarith [inc_pos, mul_nonneg hlen (le_of_lt inc_pos)]
    · have hsat' : sat = e + ((((i + 1) : ℤ) : ℚ) - 2) * ENERGY_INCREMENT +
          ((rest.length : ℚ)) * ENERGY_INCREMENT := by
        rw [hsat]; push_cast [List.length_cons]; ring
      exact ih c (i + 1) sat hsat'

/-- The loop value is monotone in the score: brackets further along the list
only ever produce larger energies, and within one bracket the interpolation
is monotone. -/
theorem walkEnergy_mono (e s1 s2 : ℚ) (h12 : s1 ≤ s2) (L : List ℚ) :
    ∀ (prev : ℚ) (i : ℤ) (sat : ℚ),
      prev ≤ s1 →
      sat = e + ((i : ℚ) - 2) * ENERGY_INCREMENT + (L.length : ℚ) * ENERGY_INCREMENT →
      walkEnergy s1 e prev L i sat ≤ walkEnergy s2 e prev L i sat := by
  induction L with
  | nil =>
    intro prev i sat _ _
    simp [walkEnergy]
  | cons c rest ih =>
    intro prev i sat hp1 hsat
    rw [walkEnergy, walkEnergy]
    by_cases h1 : s1 < c
    · have hg1 : prev ≤ s1 ∧ s1 < c := ⟨hp1, h1⟩
      rw [if_pos hg1]
      have hcp : 0 < c - prev := by linarith
      by_cases h2 : s2 < c
      · have hg2 : prev ≤ s2 ∧ s2 < c := ⟨le_trans hp1 h12, h2⟩
        rw [if_pos hg2]
        have hdivle : (s1 - prev) / (c - prev) ≤ (s2 - prev) / (c - prev) :=
          (div_le_div_iff_of_pos_right hcp).mpr (by linarith)
        nlinarith [inc_pos]
      · have hg2 : ¬(prev ≤ s2 ∧ s2 < c) := fun hg => h2 hg.2
        rw [if_neg hg2]
        have hc2 : c ≤ s2 := le_of_not_lt h2
        have hsat' : sat = e + ((((i + 1) : ℤ) : ℚ) - 2) * ENERGY_INCREMENT +
            ((rest.length : ℚ)) * ENERGY_INCREMENT := by
          rw [hsat]; push_cast [List.length_cons]; ring
        have hlow := walkEnergy_lower s2 e rest c (i + 1) sat hc2 hsat'
        have hdivlt : (s1 - prev) / (c - prev) < 1 := (div_lt_one hcp).mpr (by linarith)
        have hmul : ((s1 - prev) / (c - prev)) * ENERGY_INCREMENT ≤ ENERGY_INCREMENT := by
          nlinarith [inc_pos]
        push_cast at hlow
        nlinarith [inc_pos]
    · have hc1 : c ≤ s1 := le_of_not_lt h1
      have hg1 : ¬(prev ≤ s1 ∧ s1 < c) := fun hg => h1 hg.2
      have hg2 : ¬(prev ≤ s2 ∧ s2 < c) := fun hg => h1 (lt_of_le_of_lt h12 hg.2)
      rw [if_neg hg1, if_neg hg2]
      exact ih c (i + 1) sat hc1 (by rw [hsat]; push_cast [List.length_cons]; ring)

/-! Properties of the scenario-energy calculator. -/


/-- For a score at or above `fakeLowerThreshold`, the energy is exactly the
value of the bracket walk started at `FakeLower` with index 1: the dedicated
"between `FakeLower` and the lowest tier" branch of the code computes the
same value as the first loop iteration would. -/
theorem cseSorted_eq_walk (s e t0 t1 : ℚ) (rest : List ℚ)
    (hF : t0 - (t1 - t0) ≤ s) :
    cseSorted s (t0 :: t1 :: rest) e =
      some (walkEnergy s e (t0 - (t1 - t0)) ((t0 :: t1 :: rest) ++ [upperVal t0 t1 rest]) 1
        (e + (((t0 :: t1 :: rest).length : ℚ) - 1) * ENERGY_INCREMENT + ENERGY_INCREMENT)) := by
  simp only [cseSorted, upperVal]
  rw [if_neg (not_lt.mpr hF)]
  by_cases hB : s < t0
  · rw [if_pos hB]
    simp only [List.cons_append]
    rw [walkEnergy, if_pos ⟨hF, hB⟩]
    congr 1
    push_cast
    ring
  · rw [if_neg hB]

/-- The saturation argument passed to the walk satisfies the loop invariant
for start index 1 and list `(t0 :: t1 :: rest) ++ [U]`. -/
theorem cseSorted_sat_invariant (e t0 t1 U : ℚ) (rest : List ℚ) :
    e + (((t0 :: t1 :: rest).length : ℚ) - 1) * ENERGY_INCREMENT + ENERGY_INCREMENT =
      e + (((1 : ℤ) : ℚ) - 2) * ENERGY_INCREMENT +
        ((((t0 :: t1 :: rest) ++ [U]).length : ℚ)) * ENERGY_INCREMENT := by
  push_cast [List.length_append, List.length_cons, List.length_nil]
  ring

/-- Range of `cseSorted` for a non-negative score and a starting energy of at
least 100: the result exists and lies in `[0, startingEnergy + 100 · n]`. -/
theorem cseSorted_bounds (s e t0 t1 : ℚ) (rest : List ℚ)
    (he : 100 ≤ e) (hs : 0 ≤ s) :
    ∃ v, cseSorted s (t0 :: t1 :: rest) e = some v ∧ 0 ≤ v ∧
      v ≤ e + (((t0 :: t1 :: rest).length : ℚ)) * 100 := by
  have hlen : (0 : ℚ) ≤ (((t0 :: t1 :: rest).length : ℚ)) := by positivity
  by_cases hA : s < t0 - (t1 - t0)
  · have hF : 0 < t0 - (t1 - t0) := lt_of_le_of_lt hs hA
    refine ⟨(s / (t0 - (t1 - t0))) * (e - ENERGY_INCREMENT), ?_, ?_, ?_⟩
    · simp only [cseSorted]
      rw [if_pos hA]
    · have hd : 0 ≤ s / (t0 - (t1 - t0)) := div_nonneg hs hF.le
      have hE : (0 : ℚ) ≤ e - ENERGY_INCREMENT := by
        norm_num [ENERGY_INCREMENT]; linarith
      exact mul_nonneg hd hE
    · have hd1 : s / (t0 - (t1 - t0)) ≤ 1 := (div_le_one hF).mpr hA.le
      have hd0 : 0 ≤ s / (t0 - (t1 - t0)) := div_nonneg hs hF.le
      have hE : (0 : ℚ) ≤ e - ENERGY_INCREMENT := by
        norm_num [ENERGY_INCREMENT]; linarith
      nlinarith [mul_nonneg (sub_nonneg.mpr hd1) hE, inc_pos, hlen]
  · have hF : t0 - (t1 - t0) ≤ s := not_lt.mp hA
    rw [cseSorted_eq_walk s e t0 t1 rest hF]
    refine ⟨_, rfl, ?_, ?_⟩
    · have hlow := walkEnergy_lower s e ((t0 :: t1 :: rest) ++ [upperVal t0 t1 rest])
        (t0 - (t1 - t0)) 1 _ hF (cseSorted_sat_invariant e t0 t1 (upperVal t0 t1 rest) rest)
      have : (0 : ℚ) ≤ e + (((1 : ℤ) : ℚ) - 2) * ENERGY_INCREMENT := by
        push_cast
        norm_num [ENERGY_INCREMENT]
        linarith
      linarith
    · have hup := walkEnergy_upper s e ((t0 :: t1 :: rest) ++ [upperVal t0 t1 rest])
        (t0 - (t1 - t0)) 1 _ (cseSorted_sat_invariant e t0 t1 (upperVal t0 t1 rest) rest)
      have : e + (((t0 :: t1 :: rest).length : ℚ) - 1) * ENERGY_INCREMENT + ENERGY_INCREMENT =
          e + (((t0 :: t1 :: rest).length : ℚ)) * 100 := by
        norm_num [ENERGY_INCREMENT]
        ring
      linarith
/-- Monotonicity of `cseSorted` in the score, for non-negative scores and a
starting energy of at least 100. -/
theorem cseSorted_mono (e s1 s2 t0 t1 : ℚ) (rest : List ℚ)
    (he : 100 ≤ e) (hs1 : 0 ≤ s1) (h12 : s1 ≤ s2) :
    ∀ v1 v2, cseSorted s1 (t0 :: t1 :: rest) e = some v1 →
      cseSorted s2 (t0 :: t1 :: rest) e = some v2 → v1 ≤ v2 := by
  intro v1 v2 h1 h2
  have hE : (0 : ℚ) ≤ e - ENERGY_INCREMENT := by
    norm_num [ENERGY_INCREMENT]; linarith
  by_cases hA1 : s1 < t0 - (t1 - t0)
  · have hF : 0 < t0 - (t1 - t0) := lt_of_le_of_lt hs1 hA1
    have hv1 : v1 = (s1 / (t0 - (t1 - t0))) * (e - ENERGY_INCREMENT) := by
      rw [cseSorted, if_pos hA1] at h1
      exact (Option.some.inj h1).symm
    have hd1 : s1 / (t0 - (t1 - t0)) ≤ 1 := (div_le_one hF).mpr hA1.le
    have hd0 : 0 ≤ s1 / (t0 - (t1 - t0)) := div_nonneg hs1 hF.le
    have hv1le : v1 ≤ e - ENERGY_INCREMENT := by
      rw [hv1]
      nlinarith [mul_nonneg (sub_nonneg.mpr hd1) hE]
    by_cases hA2 : s2 < t0 - (t1 - t0)
    · have hv2 : v2 = (s2 / (t0 - (t1 - t0))) * (e - ENERGY_INCREMENT) := by
        rw [cseSorted, if_pos hA2] at h2
        exact (Option.some.inj h2).symm
      have hdle : s1 / (t0 - (t1 - t0)) ≤ s2 / (t0 - (t1 - t0)) :=
        (div_le_div_iff_of_pos_right hF).mpr h12
      rw [hv1, hv2]
      nlinarith [mul_nonneg (sub_nonneg.mpr hdle) hE]
    · have hF2 : t0 - (t1 - t0) ≤ s2 := not_lt.mp hA2
      rw [cseSorted_eq_walk s2 e t0 t1 rest hF2] at h2
      have hlow := walkEnergy_lower s2 e ((t0 :: t1 :: rest) ++ [upperVal t0 t1 rest])
        (t0 - (t1 - t0)) 1 _ hF2 (cseSorted_sat_invariant e t0 t1 (upperVal t0 t1 rest) rest)
      rw [Option.some.inj h2] at hlow
      have : e + (((1 : ℤ) : ℚ) - 2) * ENERGY_INCREMENT = e - ENERGY_INCREMENT := by
        push_cast; ring
      linarith [hv1le]
  · have hF1 : t0 - (t1 - t0) ≤ s1 := not_lt.mp hA1
    have hF2 : t0 - (t1 - t0) ≤ s2 := le_trans hF1 h12
    rw [cseSorted_eq_walk s1 e t0 t1 rest hF1] at h1
    rw [cseSorted_eq_walk s2 e t0 t1 rest hF2] at h2
    have hmono := walkEnergy_mono e s1 s2 h12 ((t0 :: t1 :: rest) ++ [upperVal t0 t1 rest])
      (t0 - (t1 - t0)) 1 _ hF1 (cseSorted_sat_invariant e t0 t1 (upperVal t0 t1 rest) rest)
    rw [Option.some.inj h1, Option.some.inj h2] at hmono
    exact hmono

/-- The sorted value list of a threshold map has the same length as the map. -/
theorem sortedValues_length (thresholds : Threshold) :
    ((sortEntries thresholds).map Prod.snd).length = thresholds.length := by
  simp [sortEntries]

/-- A threshold map with at least two entries sorts to a value list of the
shape `t0 :: t1 :: rest`. -/
theorem sortedValues_shape (thresholds : Threshold) (h2 : 2 ≤ thresholds.length) :
    ∃ t0 t1 rest, (sortEntries thresholds).map Prod.snd = t0 :: t1 :: rest := by
  have hlen := sortedValues_length thresholds
  rcases hl : (sortEntries thresholds).map Prod.snd with _ | ⟨a, _ | ⟨b, l⟩⟩
  · rw [hl] at hlen; simp at hlen; omega
  · rw [hl] at hlen; simp at hlen; omega
  · exact ⟨a, b, l, rfl⟩

/-! Claim theorems: scenario energy. -/

/-- C1: For thresholds `{Bronze: 100, Silver: 200, Gold: 400}`, score 250
and starting energy 100, `calculateScenarioEnergy` returns exactly 225: the
linear interpolation between Silver's energy level (200) and Gold's (300) at
fraction `(250 − 200) / (400 − 200) = 0.25`. -/
theorem scenarioEnergy_concrete_silver :
    calculateScenarioEnergy 250 [("Bronze", 100), ("Silver", 200), ("Gold", 400)] 100 =
      some 225 := by
  norm_num [calculateScenarioEnergy, cseSorted, sortEntries, walkEnergy, entryLE,
    ENERGY_INCREMENT, List.insertionSort, List.orderedInsert]

/-- C2: For every threshold map with at least two entries and pairwise
distinct threshold values, and every starting energy ≥ 100,
`calculateScenarioEnergy` is monotonically non-decreasing in the score over
non-negative scores. -/
theorem scenarioEnergy_monotone (thresholds : Threshold) (e s1 s2 : ℚ)
    (h2 : 2 ≤ thresholds.length)
    (_hdist : (thresholds.map Prod.snd).Pairwise (· ≠ ·))
    (he : 100 ≤ e) (hs1 : 0 ≤ s1) (h12 : s1 ≤ s2) :
    ∀ v1 v2, calculateScenarioEnergy s1 thresholds e = some v1 →
      calculateScenarioEnergy s2 thresholds e = some v2 → v1 ≤ v2 := by
  obtain ⟨t0, t1, rest, hshape⟩ := sortedValues_shape thresholds h2
  intro v1 v2 h1 h2'
  rw [calculateScenarioEnergy, hshape] at h1 h2'
  exact cseSorted_mono e s1 s2 t0 t1 rest he hs1 h12 v1 v2 h1 h2'

/-- Witness for `scenarioEnergy_monotone` at the spec's concrete thresholds,
scores 150 and 250. -/
theorem scenarioEnergy_monotone_witness :
    calculateScenarioEnergy 150 [("Bronze", 100), ("Silver", 200), ("Gold", 400)] 100 =
        some 150 ∧
      calculateScenarioEnergy 250 [("Bronze", 100), ("Silver", 200), ("Gold", 400)] 100 =
        some 225 ∧
      (150 : ℚ) ≤ 225 := by
  have hv1 : calculateScenarioEnergy 150 [("Bronze", 100), ("Silver", 200), ("Gold", 400)] 100 =
      some 150 := by
    norm_num [calculateScenarioEnergy, cseSorted, sortEntries, walkEnergy, entryLE,
      ENERGY_INCREMENT, List.insertionSort, List.orderedInsert]
  have hv2 : calculateScenarioEnergy 250 [("Bronze", 100), ("Silver", 200), ("Gold", 400)] 100 =
      some 225 := by
    norm_num [calculateScenarioEnergy, cseSorted, sortEntries, walkEnergy, entryLE,
      ENERGY_INCREMENT, List.insertionSort, List.orderedInsert]
  refine ⟨hv1, hv2, ?_⟩
  exact scenarioEnergy_monotone [("Bronze", 100), ("Silver", 200), ("Gold", 400)] 100 150 250
    (by norm_num) (by norm_num) (by norm_num) (by norm_num) (by norm_num)
    150 225 hv1 hv2

/-- C3, counterexample: The claimed lower bound `startingEnergy − 100`
fails: with thresholds `{A: 100, B: 150}` (so `FakeLower = 50`), starting
energy 300 and score 0, the code returns energy 0, strictly below
`300 − 100 = 200`. -/
theorem scenarioEnergy_below_lower_bound_cex :
    calculateScenarioEnergy 0 [("A", 100), ("B", 150)] 300 = some 0 ∧
      ¬ ((300 : ℚ) - 100 ≤ 0) := by
  constructor
  · norm_num [calculateScenarioEnergy, cseSorted, sortEntries, walkEnergy, entryLE,
      ENERGY_INCREMENT, List.insertionSort, List.orderedInsert]
  · norm_num

/-- C3, amended: For every threshold map with at least two entries and
pairwise distinct values, every starting energy ≥ 100 and every non-negative
score, the returned energy lies within `[0, startingEnergy + 100 × n]`
inclusive (`n` the number of tiers); the claimed lower endpoint
`startingEnergy − 100` only holds for scores at or above `FakeLower`. -/
theorem scenarioEnergy_range (thresholds : Threshold) (e s : ℚ)
    (h2 : 2 ≤ thresholds.length)
    (_hdist : (thresholds.map Prod.snd).Pairwise (· ≠ ·))
    (he : 100 ≤ e) (hs : 0 ≤ s) :
    ∃ v, calculateScenarioEnergy s thresholds e = some v ∧ 0 ≤ v ∧
      v ≤ e + (thresholds.length : ℚ) * 100 := by
  obtain ⟨t0, t1, rest, hshape⟩ := sortedValues_shape thresholds h2
  have hlen : ((t0 :: t1 :: rest).length : ℚ) = (thresholds.length : ℚ) := by
    rw [← hshape, sortedValues_length]
  obtain ⟨v, hv, h0, hub⟩ := cseSorted_bounds s e t0 t1 rest he hs
  refine ⟨v, ?_, h0, ?_⟩
  · rw [calculateScenarioEnergy, hshape]
    exact hv
  · rw [← hlen]
    exact hub

/-- Witness for `scenarioEnergy_range` at the spec's concrete thresholds and
score 250. -/
theorem scenarioEnergy_range_witness :
    calculateScenarioEnergy 250 [("Bronze", 100), ("Silver", 200), ("Gold", 400)] 100 =
        some 225 ∧
      (0 : ℚ) ≤ 225 ∧ (225 : ℚ) ≤ 100 + 3 * 100 := by
  obtain ⟨v, hv, h0, hub⟩ := scenarioEnergy_range
    [("Bronze", 100), ("Silver", 200), ("Gold", 400)] 100 250
    (by norm_num) (by norm_num) (by norm_num) (by norm_num)
  have hv225 : calculateScenarioEnergy 250 [("Bronze", 100), ("Silver", 200), ("Gold", 400)] 100 =
      some 225 := by
    norm_num [calculateScenarioEnergy, cseSorted, sortEntries, walkEnergy, entryLE,
      ENERGY_INCREMENT, List.insertionSort, List.orderedInsert]
  have hveq : v = 225 := by
    rw [hv225] at hv
    exact (Option.some.inj hv).symm
  rw [hveq] at hub
  norm_num at hub
  refine ⟨hv225, by norm_num, by norm_num⟩

/-- C9: `calculateScenarioEnergy` fails (`InsufficientTiers`: no numeric
result) exactly when the threshold map has fewer than two entries; with at
least two entries it always produces a number. -/
theorem scenarioEnergy_insufficientTiers (s : ℚ) (thresholds : Threshold) (e : ℚ) :
    (thresholds.length < 2 → calculateScenarioEnergy s thresholds e = none) ∧
      (2 ≤ thresholds.length → ∃ v, calculateScenarioEnergy s thresholds e = some v) := by
  constructor
  · intro hlt
    have hlen := sortedValues_length thresholds
    rw [calculateScenarioEnergy]
    rcases hl : (sortEntries thresholds).map Prod.snd with _ | ⟨a, _ | ⟨b, l⟩⟩
    · rfl
    · rfl
    · rw [hl] at hlen
      simp at hlen
      omega
  · intro h2
    obtain ⟨t0, t1, rest, hshape⟩ := sortedValues_shape thresholds h2
    rw [calculateScenarioEnergy, hshape]
    exact ⟨_, rfl⟩

/-- Witness for `scenarioEnergy_insufficientTiers`: a single-tier map fails,
a two-tier map succeeds. -/
theorem scenarioEnergy_insufficientTiers_witness :
    calculateScenarioEnergy 50 [("Bronze", 100)] 100 = none ∧
      ∃ v, calculateScenarioEnergy 50 [("Bronze", 100), ("Silver", 200)] 100 = some v := by
  constructor
  · exact (scenarioEnergy_insufficientTiers 50 [("Bronze", 100)] 100).1 (by norm_num)
  · exact (scenarioEnergy_insufficientTiers 50 [("Bronze", 100), ("Silver", 200)] 100).2
      (by norm_num)
/-! Claim theorems: harmonic mean. -/

/-- The reciprocal-sum `reduce` of `calculateHarmonicMean` is the sum of the
mapped reciprocals. -/
theorem reciprocalSum_eq (values : List ℚ) :
    values.foldl (fun sum v => sum + 1 / v) 0 = (values.map fun v => 1 / v).sum := by
  rw [List.sum_eq_foldl, List.foldl_map]

/-- C4: `calculateHarmonicMean(values, expectedCount)` divides the length
by the reciprocal sum (JavaScript division) exactly when the length matches
`expectedCount` and every entry is nonzero, and returns exactly 0 otherwise;
in particular `[100]` with expected count 2 gives 0, and `[100, 200]` with
expected count 2 gives `2 / (1/100 + 1/200) = 400/3`. -/
theorem harmonicMean_spec (values : List ℚ) (n : ℕ) :
    (values.length = n → (∀ v ∈ values, v ≠ 0) →
        calculateHarmonicMean values n =
          jsDiv (values.length : ℚ) ((values.map fun v => 1 / v).sum)) ∧
      (values.length ≠ n ∨ (∃ v ∈ values, v = 0) →
        calculateHarmonicMean values n = JsNum.num 0) ∧
      calculateHarmonicMean [100] 2 = JsNum.num 0 ∧
      calculateHarmonicMean [100, 200] 2 = JsNum.num (400 / 3) := by
  refine ⟨?_, ?_, ?_, ?_⟩
  · intro hlen hnz
    have hguard : ¬ (values.length ≠ n ∨ ∃ v ∈ values, v = 0) := by
      push_neg
      exact ⟨hlen, hnz⟩
    rw [calculateHarmonicMean, if_neg hguard, reciprocalSum_eq]
  · intro h
    rw [calculateHarmonicMean, if_pos h]
  · norm_num [calculateHarmonicMean]
  · norm_num [calculateHarmonicMean, jsDiv]

/-- Witness for `harmonicMean_spec`: the complete case `[100, 200]` with
expected count 2 takes the division path. -/
theorem harmonicMean_spec_witness :
    calculateHarmonicMean [100, 200] 2 =
      jsDiv ((([100, 200] : List ℚ)).length : ℚ)
        ((([100, 200] : List ℚ)).map fun v => 1 / v).sum :=
  (harmonicMean_spec [100, 200] 2).1 rfl (by norm_num)

/-- C10: For `values = []` with `expectedCount = 0` the incompleteness
gate does not fire (the length matches and there is no zero element), and the
unguarded division evaluates `0 / 0`, i.e. JavaScript `NaN` — not 0. -/
theorem harmonicMean_empty_nan :
    calculateHarmonicMean ([] : List ℚ) 0 = JsNum.nan ∧
      calculateHarmonicMean ([] : List ℚ) 0 ≠ JsNum.num 0 := by
  constructor
  · norm_num [calculateHarmonicMean, jsDiv]
  · have h : calculateHarmonicMean ([] : List ℚ) 0 = JsNum.nan := by
      norm_num [calculateHarmonicMean, jsDiv]
    rw [h]
    exact fun hcontra => JsNum.noConfusion hcontra

/-! Claim theorems: overall rank classifier. -/

/-- If no examined index qualifies, the countdown loop falls through to
`"Unranked"`. -/
theorem rankLoop_unranked (energy start : ℚ) (ranks : List String) :
    ∀ m : ℕ, (∀ i : ℕ, i < m → ¬ (start + (i : ℚ) * ENERGY_INCREMENT ≤ energy)) →
      rankLoop energy start ranks m = "Unranked" := by
  intro m
  induction m with
  | zero => intro _; rfl
  | succ k ih =>
    intro h
    rw [rankLoop]
    rw [if_neg (h k (Nat.lt_succ_self k))]
    exact ih fun i hi => h i (Nat.lt_succ_of_lt hi)

/-- The countdown loop returns `ranks[i]` for the largest examined index `i`
whose energy floor is met. -/
theorem rankLoop_hit (energy start : ℚ) (ranks : List String) :
    ∀ (m i : ℕ), i < m → start + (i : ℚ) * ENERGY_INCREMENT ≤ energy →
      (∀ j : ℕ, i < j → j < m → ¬ (start + (j : ℚ) * ENERGY_INCREMENT ≤ energy)) →
      rankLoop energy start ranks m = ranks.getD i "Unranked" := by
  intro m
  induction m with
  | zero => intro i hi; omega
  | succ k ih =>
    intro i hi hq hblock
    rw [rankLoop]
    by_cases hk : start + (k : ℚ) * ENERGY_INCREMENT ≤ energy
    · rw [if_pos hk]
      have hik : i = k := by
        by_contra hne
        have hlt : i < k := by omega
        exact hblock k hlt (Nat.lt_succ_self k) hk
      rw [hik]
    · rw [if_neg hk]
      have hlt : i < k := by
        rcases Nat.lt_succ_iff_lt_or_eq.mp hi with h | h
        · exact h
        · exact absurd (h ▸ hq) hk
      exact ih i hlt hq fun j hij hjk => hblock j hij (Nat.lt_succ_of_lt hjk)


/-- The Novice starting energy of the example is 100. -/
theorem noviceRanksExample_start :
    calculateStartingEnergy Difficulty.Novice noviceRanksExample = 100 := by
  have hidx : difficultiesList.indexOf Difficulty.Novice = 0 := rfl
  simp only [calculateStartingEnergy, hidx, List.take_zero, List.map_nil, List.sum_nil,
    ENERGY_BASE]
  norm_num

/-- C5, counterexample: At energy exactly 100 — Bronze's energy floor —
the classifier returns `"Bronze"`, not `"Unranked"` as the claim's
`classify(100) → Unranked` instance asserts. -/
theorem overallRank_at_floor_cex :
    calculateOverallRank 100 Difficulty.Novice noviceRanksExample = "Bronze" ∧
      calculateOverallRank 100 Difficulty.Novice noviceRanksExample ≠ "Unranked" := by
  have h : calculateOverallRank 100 Difficulty.Novice noviceRanksExample = "Bronze" := by
    rw [calculateOverallRank, noviceRanksExample_start]
    norm_num [noviceRanksExample, rankLoop, ENERGY_INCREMENT]
  exact ⟨h, by rw [h]; simp⟩

/-- C5, amended: `calculateOverallRank` returns the rank with the
highest ordinal `i` such that `startingEnergy(difficulty) + 100 × i ≤ energy`
and `"Unranked"` when no ordinal qualifies; in the spec's example
(`startingEnergy = 100`, tiers Bronze/Silver/Gold), `classify(100) = "Bronze"`
(energy 100 meets Bronze's floor, not `"Unranked"` as originally claimed),
`classify(200) = "Silver"` and `classify(330) = "Gold"`. -/
theorem overallRank_spec (energy : ℚ) (difficulty : Difficulty)
    (dr : Difficulty → List String) :
    (∀ i : ℕ, i < (dr difficulty).length →
        calculateStartingEnergy difficulty dr + (i : ℚ) * 100 ≤ energy →
        (∀ j : ℕ, j < (dr difficulty).length →
          calculateStartingEnergy difficulty dr + (j : ℚ) * 100 ≤ energy → j ≤ i) →
        calculateOverallRank energy difficulty dr = (dr difficulty).getD i "Unranked") ∧
      ((∀ i : ℕ, i < (dr difficulty).length →
          ¬ (calculateStartingEnergy difficulty dr + (i : ℚ) * 100 ≤ energy)) →
        calculateOverallRank energy difficulty dr = "Unranked") ∧
      calculateOverallRank 100 Difficulty.Novice noviceRanksExample = "Bronze" ∧
      calculateOverallRank 200 Difficulty.Novice noviceRanksExample = "Silver" ∧
      calculateOverallRank 330 Difficulty.Novice noviceRanksExample = "Gold" := by
  have hE : ENERGY_INCREMENT = (100 : ℚ) := rfl
  refine ⟨?_, ?_, ?_, ?_, ?_⟩
  · intro i hi hq hmax
    rw [calculateOverallRank]
    rw [rankLoop_hit energy (calculateStartingEnergy difficulty dr) (dr difficulty)
      (dr difficulty).length i hi (by rw [hE]; exact hq) ?_]
    intro j hij hjlen hq'
    exact absurd (hmax j hjlen (by rw [← hE]; exact hq')) (by omega)
  · intro h
    rw [calculateOverallRank]
    exact rankLoop_unranked energy _ _ _ fun i hi => by
      rw [hE]
      exact h i hi
  · have h : calculateOverallRank 100 Difficulty.Novice noviceRanksExample = "Bronze" := by
      rw [calculateOverallRank, noviceRanksExample_start]
      norm_num [noviceRanksExample, rankLoop, ENERGY_INCREMENT]
    exact h
  · rw [calculateOverallRank, noviceRanksExample_start]
    norm_num [noviceRanksExample, rankLoop, ENERGY_INCREMENT]
  · rw [calculateOverallRank, noviceRanksExample_start]
    norm_num [noviceRanksExample, rankLoop, ENERGY_INCREMENT]

/-- Witness for `overallRank_spec`: at energy 200 the highest qualifying
ordinal is 1, and the classifier returns `ranks[1] = "Silver"`. -/
theorem overallRank_spec_witness :
    calculateOverallRank 200 Difficulty.Novice noviceRanksExample =
      (noviceRanksExample Difficulty.Novice).getD 1 "Unranked" := by
  apply (overallRank_spec 200 Difficulty.Novice noviceRanksExample).1 1
  · norm_num [noviceRanksExample]
  · rw [noviceRanksExample_start]; norm_num
  · intro j hjlen hq
    rw [noviceRanksExample_start] at hq
    simp only [noviceRanksExample, List.length_cons, List.length_nil] at hjlen
    interval_cases j
    · omega
    · omega
    · norm_num at hq
/-! Claim theorems: per-scenario rank resolver. -/

/-- C6, counterexample: The `App.tsx` resolver depends on the iteration
order of the threshold map: with entries iterated as `Gold: 400` then
`Bronze: 100` and score 500, it returns `"Bronze"`, although `Gold` is the
tier with the greatest threshold ≤ 500. -/
theorem scoreRank_iteration_order_cex :
    scoreRank 500 [("Gold", 400), ("Bronze", 100)] = "Bronze" ∧
      (400 : ℚ) ≤ 500 ∧ (100 : ℚ) < 400 ∧
      scoreRank 500 [("Gold", 400), ("Bronze", 100)] ≠ "Gold" := by
  have h : scoreRank 500 [("Gold", 400), ("Bronze", 100)] = "Bronze" := by
    norm_num [scoreRank]
  refine ⟨h, by norm_num, by norm_num, by rw [h]; simp⟩

/-- If no entry's threshold is met, the resolver's accumulator is returned
unchanged. -/
theorem scoreRank_foldl_no_hit (highScore : ℚ) :
    ∀ (L : Threshold) (acc : String), (∀ p ∈ L, ¬ p.2 ≤ highScore) →
      L.foldl (fun acc p => if p.2 ≤ highScore then p.1 else acc) acc = acc := by
  intro L
  induction L with
  | nil => intro acc _; rfl
  | cons x rest ih =>
    intro acc h
    rw [List.foldl_cons, if_neg (h x (List.mem_cons_self x rest))]
    exact ih acc fun p hp => h p (List.mem_cons_of_mem x hp)

/-- On a strictly-ascending entry list, the resolver's fold returns the label
of the qualifying entry with the greatest threshold. -/
theorem scoreRank_foldl_hit (highScore : ℚ) :
    ∀ (L : Threshold) (acc : String) (p : String × ℚ), p ∈ L → p.2 ≤ highScore →
      (∀ q ∈ L, q.2 ≤ highScore → q.2 ≤ p.2) →
      (L.Pairwise fun a b => a.2 < b.2) →
      L.foldl (fun acc p => if p.2 ≤ highScore then p.1 else acc) acc = p.1 := by
  intro L
  induction L with
  | nil => intro acc p hp; exact absurd hp (List.not_mem_nil p)
  | cons x rest ih =>
    intro acc p hp hple hmax hpair
    rcases List.mem_cons.mp hp with heq | hmem
    · subst heq
      rw [List.foldl_cons, if_pos hple]
      refine scoreRank_foldl_no_hit highScore rest p.1 fun q hq hqle => ?_
      have hlt := (List.pairwise_cons.mp hpair).1 q hq
      exact absurd (hmax q (List.mem_cons_of_mem p hq) hqle) (not_le.mpr hlt)
    · rw [List.foldl_cons]
      exact ih _ p hmem hple
        (fun q hq hqle => hmax q (List.mem_cons_of_mem x hq) hqle)
        (List.pairwise_cons.mp hpair).2

/-- C6, amended: When the threshold map's entries are iterated in
ascending threshold order (the order in which the catalogue lists them), the
`App.tsx` per-scenario resolver returns the label of the tier with the
greatest threshold ≤ the score, and `"Unranked"` when no tier qualifies; with
other iteration orders it returns the last qualifying entry in iteration
order, which can differ. -/
theorem scoreRank_sorted_spec (highScore : ℚ) (thresholds : Threshold)
    (hsorted : thresholds.Pairwise fun a b => a.2 < b.2) :
    ((∀ p ∈ thresholds, ¬ p.2 ≤ highScore) →
        scoreRank highScore thresholds = "Unranked") ∧
      (∀ p ∈ thresholds, p.2 ≤ highScore →
        (∀ q ∈ thresholds, q.2 ≤ highScore → q.2 ≤ p.2) →
        scoreRank highScore thresholds = p.1) := by
  constructor
  · intro h
    exact scoreRank_foldl_no_hit highScore thresholds "Unranked" h
  · intro p hp hple hmax
    exact scoreRank_foldl_hit highScore thresholds "Unranked" p hp hple hmax hsorted

/-- Witness for `scoreRank_sorted_spec`: ascending entries
`Bronze 100, Silver 200, Gold 400` with score 250 resolve to `"Silver"`. -/
theorem scoreRank_sorted_spec_witness :
    scoreRank 250 [("Bronze", 100), ("Silver", 200), ("Gold", 400)] = "Silver" := by
  have hsorted : ([("Bronze", (100 : ℚ)), ("Silver", 200), ("Gold", 400)] : Threshold).Pairwise
      (fun a b => a.2 < b.2) := by
    norm_num [List.pairwise_cons]
  refine (scoreRank_sorted_spec 250 [("Bronze", 100), ("Silver", 200), ("Gold", 400)]
      hsorted).2 ("Silver", 200) (by simp) (by norm_num) ?_
  intro q hq hqle
  simp only [List.mem_cons, List.not_mem_nil, or_false] at hq
  rcases hq with rfl | rfl | rfl
  · norm_num
  · norm_num
  · norm_num at hqle

/-! Claim theorems: subcategory aggregation. -/

/-- A threshold map with at least two entries always yields a numeric
scenario energy. -/
theorem scenarioEnergy_isSome (s : ℚ) (thresholds : Threshold) (e : ℚ)
    (h2 : 2 ≤ thresholds.length) :
    ∃ v, calculateScenarioEnergy s thresholds e = some v := by
  obtain ⟨t0, t1, rest, hshape⟩ := sortedValues_shape thresholds h2
  rw [calculateScenarioEnergy, hshape]
  exact ⟨_, rfl⟩

/-- The subcategory fold from accumulator `some m` computes the `max`-fold of
the scored scenarios' energies over `m`. -/
theorem subcat_foldl (scores : BenchmarkState) (e : ℚ) :
    ∀ (scenarios : ScenarioMap) (m : ℚ), (∀ p ∈ scenarios, 2 ≤ p.2.length) →
      scenarios.foldl (subcatStep scores e) (some m) =
        some ((scoredScenarioEnergies scenarios scores e).foldl max m) := by
  intro scenarios
  induction scenarios with
  | nil => intro m _; simp [scoredScenarioEnergies]
  | cons p rest ih =>
    intro m h2
    rw [List.foldl_cons]
    cases hs : scores p.1 with
    | none =>
      have hstep : subcatStep scores e (some m) p = some m := by
        simp only [subcatStep, hs]
      have hdrop : scoredScenarioEnergies (p :: rest) scores e =
          scoredScenarioEnergies rest scores e := by
        simp [scoredScenarioEnergies, List.filterMap_cons, hs]
      rw [hstep, hdrop]
      exact ih m fun q hq => h2 q (List.mem_cons_of_mem p hq)
    | some highScore =>
      obtain ⟨v, hv⟩ := scenarioEnergy_isSome highScore p.2 e (h2 p (List.mem_cons_self p rest))
      have hstep : subcatStep scores e (some m) p = some (max m v) := by
        simp only [subcatStep, hs, hv]
      have hkeep : scoredScenarioEnergies (p :: rest) scores e =
          v :: scoredScenarioEnergies rest scores e := by
        simp [scoredScenarioEnergies, List.filterMap_cons, hs, hv]
      rw [hstep, hkeep, List.foldl_cons]
      exact ih (max m v) fun q hq => h2 q (List.mem_cons_of_mem p hq)

/-- The initial accumulator is a lower bound of a `max`-fold. -/
theorem le_foldl_max : ∀ (L : List ℚ) (b : ℚ), b ≤ L.foldl max b := by
  intro L
  induction L with
  | nil => intro b; exact le_refl b
  | cons x rest ih =>
    intro b
    exact le_trans (le_max_left b x) (ih (max b x))

/-- Every member of the list is a lower bound of its `max`-fold. -/
theorem mem_le_foldl_max : ∀ (L : List ℚ) (b : ℚ) (x : ℚ), x ∈ L → x ≤ L.foldl max b := by
  intro L
  induction L with
  | nil => intro b x hx; exact absurd hx (List.not_mem_nil x)
  | cons y rest ih =>
    intro b x hx
    rcases List.mem_cons.mp hx with rfl | hmem
    · exact le_trans (le_max_right b x) (le_foldl_max rest (max b x))
    · exact ih (max b y) x hmem

/-- A `max`-fold is either a member of the list or the initial accumulator. -/
theorem foldl_max_mem_or_init : ∀ (L : List ℚ) (b : ℚ),
    L.foldl max b ∈ L ∨ L.foldl max b = b := by
  intro L
  induction L with
  | nil => intro b; exact Or.inr rfl
  | cons y rest ih =>
    intro b
    rcases ih (max b y) with hmem | heq
    · exact Or.inl (List.mem_cons_of_mem y hmem)
    · rcases max_choice b y with hb | hy
      · rw [List.foldl_cons, heq, hb]
        exact Or.inr rfl
      · rw [List.foldl_cons, heq, hy]
        exact Or.inl (List.mem_cons_self y rest)

/-- C7: `calculateSubcategoryEnergy` is the maximum (with floor 0) of the
energies of exactly the scenarios that have a recorded score: it equals the
`max`-fold of `scoredScenarioEnergies` from 0; every scored scenario's energy
is ≤ the result; the result is one of the scored energies or 0; with no
scored scenario the result is 0; and prepending a scenario with no recorded
score never changes the result (exclusion, not a zero contribution). -/
theorem subcategoryEnergy_spec (scenarios : ScenarioMap) (scores : BenchmarkState)
    (e : ℚ) (h2 : ∀ p ∈ scenarios, 2 ≤ p.2.length) :
    calculateSubcategoryEnergy scenarios scores e =
        some ((scoredScenarioEnergies scenarios scores e).foldl max 0) ∧
      (∀ x ∈ scoredScenarioEnergies scenarios scores e,
        x ≤ (scoredScenarioEnergies scenarios scores e).foldl max 0) ∧
      ((scoredScenarioEnergies scenarios scores e).foldl max 0 ∈
          scoredScenarioEnergies scenarios scores e ∨
        (scoredScenarioEnergies scenarios scores e).foldl max 0 = 0) ∧
      (scoredScenarioEnergies scenarios scores e = [] →
        calculateSubcategoryEnergy scenarios scores e = some 0) ∧
      (∀ name ts, scores name = none →
        calculateSubcategoryEnergy ((name, ts) :: scenarios) scores e =
          calculateSubcategoryEnergy scenarios scores e) := by
  have hmain : calculateSubcategoryEnergy scenarios scores e =
      some ((scoredScenarioEnergies scenarios scores e).foldl max 0) := by
    rw [calculateSubcategoryEnergy]
    exact subcat_foldl scores e scenarios 0 h2
  refine ⟨hmain, ?_, ?_, ?_, ?_⟩
  · exact fun x hx => mem_le_foldl_max _ 0 x hx
  · exact foldl_max_mem_or_init _ 0
  · intro hempty
    rw [hmain, hempty]
    rfl
  · intro name ts hnone
    rw [calculateSubcategoryEnergy, calculateSubcategoryEnergy, List.foldl_cons]
    have hstep : subcatStep scores e (some 0) (name, ts) = some 0 := by
      simp only [subcatStep, hnone]
    rw [hstep]

/-- Witness for `subcategoryEnergy_spec`: one scored scenario with a two-tier
map; the subcategory energy is that scenario's energy. -/
theorem subcategoryEnergy_spec_witness :
    calculateSubcategoryEnergy [("A", [("Bronze", 100), ("Silver", 200)])]
        (fun n => if n = "A" then some 150 else none) 100 = some 150 := by
  have h := (subcategoryEnergy_spec [("A", [("Bronze", 100), ("Silver", 200)])]
    (fun n => if n = "A" then some 150 else none) 100
    (by intro p hp; simp only [List.mem_cons, List.not_mem_nil, or_false] at hp
        subst hp; norm_num)).1
  have henergy : calculateScenarioEnergy 150 [("Bronze", (100 : ℚ)), ("Silver", 200)] 100 =
      some 150 := by
    norm_num [calculateScenarioEnergy, cseSorted, sortEntries, walkEnergy, entryLE,
      ENERGY_INCREMENT, List.insertionSort, List.orderedInsert]
  have hlist : scoredScenarioEnergies [("A", [("Bronze", 100), ("Silver", 200)])]
      (fun n => if n = "A" then some 150 else none) 100 = [150] := by
    simp [scoredScenarioEnergies, List.filterMap_cons, henergy]
  rw [h, hlist]
  norm_num
/-! Claim theorems: completion checker. -/


/-- The innermost `forEach` body of `isRankComplete` either keeps the flag
(when `scenarioOK`) or clears it. -/
theorem isRankComplete_step_eq (scores : BenchmarkState) (rank : String) :
    (fun (acc3 : Bool) (p : String × Threshold) =>
        match scores p.1, p.2.lookup rank with
        | some highScore, some threshold =>
          if threshold ≠ 0 then
            if highScore < threshold then false else acc3
          else acc3
        | _, _ => acc3) =
      fun acc3 p => if scenarioOK scores rank p then acc3 else false := by
  funext acc p
  rcases hs : scores p.1 with _ | hsv <;> rcases hl : p.2.lookup rank with _ | t
  · simp [scenarioOK, hs, hl]
  · simp [scenarioOK, hs, hl]
  · simp [scenarioOK, hs, hl]
  · simp only [scenarioOK, hs, hl]
    by_cases ht : t ≠ 0
    · rw [if_pos ht, if_pos ht]
      by_cases hlt : hsv < t
      · rw [if_pos hlt, if_neg (by simp [not_le.mpr hlt])]
      · rw [if_neg hlt, if_pos (by simp [not_lt.mp hlt])]
    · rw [if_neg ht, if_neg ht, if_pos rfl]

/-- A fold of a keep-or-clear flag equals the conjunction of the initial flag
with `List.all`. -/
theorem foldl_flag {α : Type} (f : α → Bool) :
    ∀ (L : List α) (b : Bool),
      L.foldl (fun acc x => if f x then acc else false) b = (b && L.all f) := by
  intro L
  induction L with
  | nil => intro b; simp
  | cons x rest ih =>
    intro b
    rw [List.foldl_cons, List.all_cons]
    cases hfx : f x
    · rw [if_neg (by simp [hfx]), ih false]
      simp
    · rw [if_pos rfl, ih b]
      simp

/-- A fold of `acc && g x` equals the conjunction of the initial flag with
`List.all`. -/
theorem foldl_and {α : Type} (g : α → Bool) :
    ∀ (L : List α) (b : Bool),
      L.foldl (fun acc x => acc && g x) b = (b && L.all g) := by
  intro L
  induction L with
  | nil => intro b; simp
  | cons x rest ih =>
    intro b
    rw [List.foldl_cons, List.all_cons, ih (b && g x)]
    simp [Bool.and_assoc]

/-- Propositional form of `scenarioOK`. -/
theorem scenarioOK_eq_true (scores : BenchmarkState) (rank : String)
    (p : String × Threshold) :
    scenarioOK scores rank p = true ↔
      ∀ hs t, scores p.1 = some hs → p.2.lookup rank = some t → t ≠ 0 → ¬ hs < t := by
  rcases hsc : scores p.1 with _ | hsv <;> rcases hlk : p.2.lookup rank with _ | t
  · simp [scenarioOK, hsc, hlk]
  · simp [scenarioOK, hsc, hlk]
  · simp [scenarioOK, hsc, hlk]
  · simp only [scenarioOK, hsc, hlk, Option.some.injEq]
    by_cases ht : t ≠ 0
    · rw [if_pos ht]
      constructor
      · intro hle hs t' hhs htt' ht'
        subst hhs
        subst htt'
        exact not_lt.mpr (of_decide_eq_true hle)
      · intro h
        exact decide_eq_true (not_lt.mp (h hsv t rfl rfl ht))
    · rw [if_neg ht]
      push_neg at ht
      constructor
      · intro _ hs t' hhs htt' ht'
        subst htt'
        exact absurd ht ht'
      · intro _
        rfl

/-- C8, counterexample: A scenario whose `Bronze` threshold is 0 is
skipped by JavaScript truthiness (`thresholds[rank]` is falsy): with recorded
high score −5, `isRankComplete` reports `true` although the scenario defines
a `Bronze` threshold (0) that the score does not meet. -/
theorem isRankComplete_zero_threshold_cex :
    isRankComplete (fun n => if n = "Scen" then some (-5) else none)
        (fun d => match d with
          | Difficulty.Novice => [[[("Scen", [("Bronze", 0)])]]]
          | _ => []) Difficulty.Novice "Bronze" = true ∧
      (fun n => if n = "Scen" then some ((-5 : ℚ)) else none) "Scen" = some (-5) ∧
      (([("Bronze", (0 : ℚ))] : Threshold).lookup "Bronze") = some 0 ∧
      ¬ ((0 : ℚ) ≤ -5) := by
  refine ⟨?_, by norm_num, by simp [List.lookup], by norm_num⟩
  simp [isRankComplete, List.lookup]

/-- C8, amended: `isRankComplete` returns `true` iff every scenario
under the difficulty that defines a *nonzero* threshold for the rank and has
a recorded score meets that threshold (`¬ highScore < threshold`); a scenario
with no recorded score — or one whose threshold for the rank is 0, skipped by
JS truthiness — never blocks completion, so a rank with no attempted
scenarios is reported complete. -/
theorem isRankComplete_iff (scores : BenchmarkState) (bd : BenchmarkData)
    (d : Difficulty) (rank : String) :
    (isRankComplete scores bd d rank = true ↔
        ∀ cats ∈ bd d, ∀ scens ∈ cats, ∀ p ∈ scens, ∀ hs t,
          scores p.1 = some hs → p.2.lookup rank = some t → t ≠ 0 → ¬ hs < t) ∧
      ((∀ cats ∈ bd d, ∀ scens ∈ cats, ∀ p ∈ scens, scores p.1 = none) →
        isRankComplete scores bd d rank = true) := by
  have hmain : isRankComplete scores bd d rank = true ↔
      ∀ cats ∈ bd d, ∀ scens ∈ cats, ∀ p ∈ scens, ∀ hs t,
        scores p.1 = some hs → p.2.lookup rank = some t → t ≠ 0 → ¬ hs < t := by
    rw [isRankComplete]
    rw [isRankComplete_step_eq scores rank]
    simp only [foldl_flag, foldl_and, Bool.true_and, List.all_eq_true, scenarioOK_eq_true]
  refine ⟨hmain, ?_⟩
  intro hnone
  rw [hmain]
  intro cats hc scens hsc p hp hs t hscore _ _
  rw [hnone cats hc scens hsc p hp] at hscore
  exact Option.noConfusion hscore

/-- Witness for `isRankComplete_iff`: a difficulty whose only scenario has no
recorded score is reported complete for `Bronze`. -/
theorem isRankComplete_iff_witness :
    isRankComplete (fun _ => none)
      (fun d => match d with
        | Difficulty.Novice => [[[("S", [("Bronze", 100)])]]]
        | _ => []) Difficulty.Novice "Bronze" = true :=
  (isRankComplete_iff (fun _ => none)
    (fun d => match d with
      | Difficulty.Novice => [[[("S", [("Bronze", 100)])]]]
      | _ => []) Difficulty.Novice "Bronze").2
    (fun _ _ _ _ _ _ => rfl)
end VTBench
